import Mathlib

/-!
Verification development for the bagelcount backend: a shallow embedding of
`src/backend/app/services/beancount.py` (the `BeancountService` class) and of
the API route handlers in `src/backend/app/api/routes/`, together with proofs
about budget resolution, caching, and the write path.
-/

set_option linter.unusedVariables false

namespace BagelCount

/-- A calendar date (year, month, day): the embedding of Python `datetime.date`. -/
structure Date where
  year : Nat
  month : Nat
  day : Nat
deriving DecidableEq, Repr

/-- Strict comparison of dates, as Python compares `datetime.date` values. -/
def Date.lt (a b : Date) : Bool :=
  Nat.blt a.year b.year ||
    (a.year == b.year && (Nat.blt a.month b.month ||
      (a.month == b.month && Nat.blt a.day b.day)))

/-- Gregorian leap-year rule, used by `datetime.date` validity checking. -/
def isLeapYear (y : Nat) : Bool :=
  (y % 4 == 0 && y % 100 != 0) || y % 400 == 0

/-- Number of days in a month of a given year. -/
def daysInMonth (y m : Nat) : Nat :=
  if m = 2 then (if isLeapYear y then 29 else 28)
  else if m = 4 ∨ m = 6 ∨ m = 9 ∨ m = 11 then 30
  else 31

/-- Numeric value of a decimal digit character. -/
def digitVal (c : Char) : Nat := c.toNat - 48

/-- Natural number denoted by a list of decimal digit characters. -/
def natOfDigits (l : List Char) : Nat :=
  l.foldl (fun acc c => acc * 10 + digitVal c) 0

/-- Embedding of `datetime.date.fromisoformat` on the `YYYY-MM-DD` format the
repository uses everywhere: returns `none` exactly when Python raises
`ValueError` (wrong shape, or not a valid calendar date). -/
def parseIsoDate (s : String) : Option Date :=
  match s.data with
  | [y1, y2, y3, y4, h1, m1, m2, h2, d1, d2] =>
    if (y1.isDigit && y2.isDigit && y3.isDigit && y4.isDigit &&
        m1.isDigit && m2.isDigit && d1.isDigit && d2.isDigit) &&
        (h1 == '-') && (h2 == '-') then
      let y := natOfDigits [y1, y2, y3, y4]
      let m := natOfDigits [m1, m2]
      let d := natOfDigits [d1, d2]
      if 1 ≤ y && 1 ≤ m && m ≤ 12 && 1 ≤ d && d ≤ daysInMonth y m then
        some ⟨y, m, d⟩
      else none
    else none
  | _ => none

/-- The characters Python `str.strip()` removes by default. -/
def pySpace (c : Char) : Bool :=
  c == ' ' || c == '\t' || c == '\n' || c == '\r' ||
    c == Char.ofNat 11 || c == Char.ofNat 12

/-- Strip `pySpace` characters from both ends of a character list. -/
def pyStripL (l : List Char) : List Char :=
  ((l.dropWhile pySpace).reverse.dropWhile pySpace).reverse

/-- Embedding of Python `s.strip()`. -/
def pyStrip (s : String) : String :=
  String.mk (pyStripL s.data)

/-- Split a character list at every occurrence of `sep`, the embedding of
Python `s.split(sep)` for a one-character separator (so `""` splits to
`[""]`). -/
def splitOnChar (sep : Char) : List Char → List (List Char)
  | [] => [[]]
  | c :: r =>
    if c == sep then [] :: splitOnChar sep r
    else
      match splitOnChar sep r with
      | h :: t => (c :: h) :: t
      | [] => [[c]]

/-- Embedding of Python `s.split(sep)` for a one-character separator. -/
def pySplit (sep : Char) (s : String) : List String :=
  (splitOnChar sep s.data).map String.mk

/-- Embedding of Python `sep.join(parts)`. -/
def joinSep (sep : String) : List String → String
  | [] => ""
  | [x] => x
  | x :: xs => x ++ sep ++ joinSep sep xs

/-- Embedding of Python `int(s)` on strings: optional surrounding whitespace,
optional sign, then decimal digits; `none` when Python raises `ValueError`. -/
def parsePyInt (s : String) : Option Int :=
  match (pyStrip s).data with
  | [] => none
  | '+' :: r =>
    if r ≠ [] ∧ r.all Char.isDigit then some (natOfDigits r) else none
  | '-' :: r =>
    if r ≠ [] ∧ r.all Char.isDigit then some (-(natOfDigits r : Int)) else none
  | r =>
    if r.all Char.isDigit then some (natOfDigits r) else none

/-- Digits of `n` most-significant first, with fuel for structural recursion. -/
def natToStrAux : Nat → Nat → List Char
  | 0, _ => []
  | fuel + 1, n =>
    if n = 0 then []
    else natToStrAux fuel (n / 10) ++ [Char.ofNat (48 + n % 10)]

/-- Decimal rendering of a natural number (embedding of Python `str`). -/
def natToStr (n : Nat) : String :=
  if n = 0 then "0" else String.mk (natToStrAux (n + 1) n)

/-- Decimal rendering of an integer (embedding of Python `str`). -/
def intToStr (i : Int) : String :=
  if i < 0 then "-" ++ natToStr (-i).toNat else natToStr i.toNat

/-- Left-pad the decimal rendering of `n` with zeroes to width `w`. -/
def padNat (w n : Nat) : String :=
  let s := natToStr n
  String.mk (List.replicate (w - s.length) '0') ++ s

/-- Embedding of `date.isoformat()`. -/
def Date.iso (d : Date) : String :=
  padNat 4 d.year ++ "-" ++ padNat 2 d.month ++ "-" ++ padNat 2 d.day

/-- Embedding of the tag parsing in `get_active_budgets`:
`[t.strip() for t in meta.get("tags", "").split(",") if t.strip()]`. -/
def parseTags (s : String) : List String :=
  ((pySplit ',' s).map pyStrip).filter (fun t => t ≠ "")

/-- Code-point lexicographic comparison of character lists, the order Python
uses to compare strings. -/
def lexLe : List Char → List Char → Bool
  | [], _ => true
  | _ :: _, [] => false
  | a :: as, b :: bs =>
    if a.toNat < b.toNat then true
    else if a.toNat = b.toNat then lexLe as bs
    else false

/-- Python string `<=` on our embedding. -/
def strLe (a b : String) : Bool :=
  lexLe a.data b.data

/-- Insert a string into a `strLe`-sorted list, keeping it sorted. -/
def insertTag (x : String) : List String → List String
  | [] => [x]
  | y :: ys => if strLe x y then x :: y :: ys else y :: insertTag x ys

/-- Embedding of Python `sorted` on a list of strings (tag normalization):
insertion sort by code-point order. -/
def sortTags : List String → List String
  | [] => []
  | x :: xs => insertTag x (sortTags xs)

/-- First-match lookup in an association list, the embedding of Python
dictionary access on the small string-keyed dicts the service uses. -/
def getAssoc {β : Type} (k : String) : List (String × β) → Option β
  | [] => none
  | (k', v) :: r => if k' = k then some v else getAssoc k r

/-- Replace the first binding of `k` (keeping its position) or append a new
one: the embedding of Python `d[k] = v` on an insertion-ordered dict. -/
def setAssoc {β : Type} (l : List (String × β)) (k : String) (v : β) :
    List (String × β) :=
  match l with
  | [] => [(k, v)]
  | (k', v') :: r => if k' = k then (k, v) :: r else (k', v') :: setAssoc r k v

/-- One component of a `Custom` directive's `values` list: the account string
or an `Amount(number, currency)` pair, as `get_active_budgets` consumes them. -/
inductive CVal where
  | str (s : String)
  | amount (number : Int) (currency : String)
deriving DecidableEq, Repr

/-- Embedding of the domain `Posting` model. -/
structure Posting where
  account : String
  units : Int
  currency : String
deriving DecidableEq, Repr

/-- Embedding of the domain `Transaction` model. -/
structure DomainTransaction where
  dt : Date
  payee : Option String
  narration : String
  flag : Option String
  postings : List Posting
deriving DecidableEq, Repr

/-- Embedding of the domain `Account` model. -/
structure DomainAccount where
  name : String
  atype : String
  currency : String
deriving DecidableEq, Repr

/-- A parsed beancount directive, restricted to the kinds the service
inspects: `Open`, `Close`, `Transaction`, and `Custom`. -/
inductive Entry where
  | openAcc (dt : Date) (account : String) (currencies : List String)
  | closeAcc (dt : Date) (account : String)
  | txn (dt : Date) (payee : Option String) (narration : String)
      (flag : Option String) (postings : List Posting)
  | custom (dt : Date) (ctype : String) (meta : List (String × String))
      (values : List CVal)
deriving DecidableEq, Repr

/-- Variant part of a budget allocation: `StandardBudget` adds `frequency`,
`CustomBudget` adds `end_date` (mirrors the pydantic models in `domain.py`). -/
inductive BVariant where
  | standard (frequency : String)
  | custom (end_date : Date)
deriving DecidableEq, Repr

/-- Embedding of the `BudgetAllocation` domain models (`BaseBudget` fields
plus the variant). -/
structure Budget where
  account : String
  amount : Int
  currency : String
  tags : List String
  created_at : Option Int
  start_date : Date
  variant : BVariant
deriving DecidableEq, Repr

/-- Discriminator component of a resolution key: `meta["frequency"]` for the
Standard branch, the parsed `end_date` for the Custom branch.  The two never
collide, exactly as a Python `str` never equals a `datetime.date`. -/
inductive Disc where
  | freq (f : String)
  | til (d : Date)
deriving DecidableEq, Repr

/-- The resolution key `(account, b_start, discriminator, tuple(sorted(tags)))`
built in `get_active_budgets`. -/
structure RKey where
  account : String
  start_date : Date
  disc : Disc
  tags : List String
deriving DecidableEq, Repr

/-- The `Literal["monthly", "quarterly", "yearly"]` validation pydantic applies
to `StandardBudget.frequency`; a failing value raises `ValidationError`
(a `ValueError`), which the resolver's `except` clause swallows. -/
def validFrequency (f : String) : Bool :=
  f == "monthly" || f == "quarterly" || f == "yearly"

/-- The resolution key determined by a budget's own fields; the key built in
the source coincides with it (proved in `processEntry_key`). -/
def keyOf (b : Budget) : RKey :=
  { account := b.account
    start_date := b.start_date
    disc := match b.variant with
      | .standard f => .freq f
      | .custom ed => .til ed
    tags := sortTags b.tags }

/-- Embedding of one iteration of the entry loop in
`BeancountService.get_active_budgets`: returns the constructed allocation and
its resolution key, or `none` when the source hits a `continue` or a caught
`KeyError`/`ValueError`/`IndexError`/`AttributeError`/pydantic error. -/
def processEntry : Entry → Option (Budget × RKey)
  | .custom _ ctype meta values =>
    if ctype = "budget" then
      match getAssoc "start_date" meta with
      | none => none
      | some sdStr =>
        match values with
        | .str acct :: .amount num cur :: _ =>
          let tags := parseTags ((getAssoc "tags" meta).getD "")
          match parseIsoDate sdStr with
          | none => none
          | some bStart =>
            match (match getAssoc "created_at" meta with
                   | none => some (0 : Int)
                   | some cs => parsePyInt cs) with
            | none => none
            | some bCreated =>
              match getAssoc "frequency" meta with
              | some f =>
                if validFrequency f then
                  some ({ account := acct, amount := num, currency := cur,
                          tags := tags, created_at := some bCreated,
                          start_date := bStart, variant := .standard f },
                        { account := acct, start_date := bStart,
                          disc := .freq f, tags := sortTags tags })
                else none
              | none =>
                match getAssoc "end_date" meta with
                | some edStr =>
                  match parseIsoDate edStr with
                  | none => none
                  | some bEnd =>
                    some ({ account := acct, amount := num, currency := cur,
                            tags := tags, created_at := some bCreated,
                            start_date := bStart, variant := .custom bEnd },
                          { account := acct, start_date := bStart,
                            disc := .til bEnd, tags := sortTags tags })
                | none => none
        | _ => none
    else none
  | _ => none

/-- Append a candidate to its key's group, creating the group at the end on
first sight: the embedding of the `active_candidates` insertion-ordered dict
of lists. -/
def addCandidate (acc : List (RKey × List Budget)) (k : RKey) (b : Budget) :
    List (RKey × List Budget) :=
  match acc with
  | [] => [(k, [b])]
  | (k', bs) :: rest =>
    if k' = k then (k', bs ++ [b]) :: rest
    else (k', bs) :: addCandidate rest k b

/-- One step of the candidate-collection loop. -/
def stepCand (acc : List (RKey × List Budget)) (e : Entry) :
    List (RKey × List Budget) :=
  match processEntry e with
  | none => acc
  | some (b, k) => addCandidate acc k b

/-- The full candidate-collection loop of `get_active_budgets`. -/
def collectCandidates (es : List Entry) : List (RKey × List Budget) :=
  es.foldl stepCand []

/-- Embedding of `x.created_at or 0` (both `None` and `0` give `0`). -/
def createdOr0 (b : Budget) : Int :=
  (b.created_at).getD 0

/-- Embedding of
`sorted(candidates, key=lambda x : x.created_at or 0, reverse=True)[0]`:
Python's sort is stable and `reverse=True` keeps ties in encounter order, so
the head is the first-encountered candidate with maximal `created_at`. -/
def pickWinner : List Budget → Option Budget
  | [] => none
  | b :: bs =>
    some (bs.foldl (fun best x => if createdOr0 best < createdOr0 x then x else best) b)

/-- Embedding of `BeancountService.get_active_budgets` on an entry list.  The
`start_date`/`end_date` parameters are accepted and ignored, exactly as in the
source. -/
def get_active_budgets (es : List Entry)
    (start_date end_date : Option Date) : List Budget :=
  (collectCandidates es).filterMap (fun g => pickWinner g.2)

/-- Embedding of `BeancountService.get_transactions` on an entry list. -/
def get_transactions (es : List Entry)
    (start_date end_date : Option Date) : List DomainTransaction :=
  es.filterMap (fun e =>
    match e with
    | .txn dt payee narration flag postings =>
      if (match start_date with | some sd => Date.lt dt sd | none => false) then
        none
      else if (match end_date with | some ed => Date.lt ed dt | none => false) then
        none
      else
        some { dt := dt, payee := payee, narration := narration, flag := flag,
               postings := postings }
    | _ => none)

/-- Record one directive into the open/closed accumulators of
`get_accounts` (`open_accounts` dict and `closed_accounts` set). -/
def stepAccounts (acc : List (String × List String) × List String) (e : Entry) :
    List (String × List String) × List String :=
  match e with
  | .openAcc _ a curs => (setAssoc acc.1 a curs, acc.2)
  | .closeAcc _ a => (acc.1, if a ∈ acc.2 then acc.2 else acc.2 ++ [a])
  | _ => acc

/-- Embedding of `BeancountService.get_accounts` on an entry list. -/
def get_accounts (es : List Entry) : List DomainAccount :=
  let r := es.foldl stepAccounts ([], [])
  r.1.filterMap (fun p =>
    if p.1 ∈ r.2 then none
    else
      some { name := p.1
             atype := ((pySplit ':' p.1).headD "")
             currency := p.2.headD "USD" })

/-- The filesystem the service runs against: path-indexed file contents,
existing directories, and last-modification times. -/
structure FS where
  files : List (String × String)
  dirs : List String
  mtimes : List (String × Nat)
deriving DecidableEq, Repr

/-- Content of the file at `p`, `none` if it does not exist. -/
def FS.read (fs : FS) (p : String) : Option String :=
  getAssoc p fs.files

/-- What `loader_func` returns: `(entries, errors, options_map)`. -/
abbrev LoadResult := List Entry × List String × List (String × String)

/-- The `loader_func` collaborator (`beancount.loader.load_file` by default,
injectable in the source's constructor): parses the filesystem's file at the
given path. -/
abbrev Loader := FS → String → LoadResult

/-- The mutable state of a `BeancountService` instance: constructor arguments
plus `_entries`, `_errors`, `_options`, `_loaded`. -/
structure SState where
  filepath : String
  budget_file : String
  entries : List Entry
  errors : List String
  options : List (String × String)
  loaded : Bool
deriving DecidableEq, Repr

/-- Embedding of `BeancountService.__init__`. -/
def initService (filepath budget_file : String) : SState :=
  { filepath := filepath, budget_file := budget_file, entries := [],
    errors := [], options := [], loaded := false }

/-- Embedding of `BeancountService.load`: stores the loader's three results
and sets `_loaded`; note that a non-empty `errors` list is stored, not
raised. -/
def load (L : Loader) (fs : FS) (s : SState) : SState :=
  let r := L fs s.filepath
  { s with entries := r.1, errors := r.2.1, options := r.2.2, loaded := true }

/-- Embedding of the `entries` property: loads on first access, otherwise
returns the cached list.  The third component counts how many times
`loader_func` was invoked during this read. -/
def entriesRead (L : Loader) (fs : FS) (s : SState) :
    SState × List Entry × Nat :=
  if s.loaded then (s, s.entries, 0)
  else
    let s' := load L fs s
    (s', s'.entries, 1)

/-- Embedding of `service.get_active_budgets` as called on a service instance
(reads `self.entries`, so it may trigger a load). -/
def service_get_active_budgets (L : Loader) (fs : FS) (s : SState)
    (start_date end_date : Option Date) : SState × List Budget :=
  let r := entriesRead L fs s
  (r.1, get_active_budgets r.2.1 start_date end_date)

/-- Embedding of `service.get_transactions` as called on a service instance. -/
def service_get_transactions (L : Loader) (fs : FS) (s : SState)
    (start_date end_date : Option Date) : SState × List DomainTransaction :=
  let r := entriesRead L fs s
  (r.1, get_transactions r.2.1 start_date end_date)

/-- Embedding of `service.get_accounts` as called on a service instance. -/
def service_get_accounts (L : Loader) (fs : FS) (s : SState) :
    SState × List DomainAccount :=
  let r := entriesRead L fs s
  (r.1, get_accounts r.2.1)

/-- Embedding of `os.path.dirname` for the relative slash-separated paths the
repository uses. -/
def dirnamePy (p : String) : String :=
  joinSep "/" (pySplit '/' p).dropLast

/-- Embedding of `os.path.dirname(path) or "."` as used in `add_budget` and
`check_budget_include`. -/
def dirnameOrDot (p : String) : String :=
  let d := dirnamePy p
  if d = "" then "." else d

/-- Assign `created_at = int(time.time())` when absent (start of
`add_budget`; `now` stands for the current clock reading). -/
def withCreated (now : Int) (a : Budget) : Budget :=
  match a.created_at with
  | none => { a with created_at := some now }
  | some _ => a

/-- The `Custom` directive `add_budget` constructs: metadata in insertion
order (`start_date`, `created_at`, then `frequency` or `end_date`, then
`tags` when non-empty), dated `date.today()`, with the account and
amount/currency values. -/
def budgetEntry (today : Date) (a : Budget) : Entry :=
  let meta :=
    [("start_date", a.start_date.iso), ("created_at", intToStr (a.created_at.getD 0))]
    ++ (match a.variant with
        | .standard f => [("frequency", f)]
        | .custom ed => [("end_date", ed.iso)])
    ++ (if a.tags = [] then [] else [("tags", joinSep "," a.tags)])
  .custom today "budget" meta [CVal.str a.account, CVal.amount a.amount a.currency]

/-- Add a directory to the filesystem if absent (embedding of
`os.makedirs(..., exist_ok=True)` one level deep). -/
def insertDir (d : String) (ds : List String) : List String :=
  if d ∈ ds then ds else ds ++ [d]

/-- Embedding of `BeancountService.add_budget`.  `printer` stands for the
external `beancount.parser.printer.format_entry` collaborator, `today` for
`date.today()` and `now` for `int(time.time())`.  Returns the new service
state, the new filesystem (directory ensured, overlay appended, overlay mtime
advanced by the operating system), and the possibly-updated allocation. -/
def add_budget (printer : Entry → String) (today : Date) (now : Int)
    (s : SState) (fs : FS) (a : Budget) : SState × FS × Budget :=
  let a' := withCreated now a
  let entry := budgetEntry today a'
  let entry_string := printer entry
  let fs1 : FS := { fs with dirs := insertDir (dirnameOrDot s.budget_file) fs.dirs }
  let old := (fs1.read s.budget_file).getD ""
  let fs2 : FS :=
    { fs1 with
      files := setAssoc fs1.files s.budget_file (old ++ "\n" ++ entry_string)
      mtimes := setAssoc fs1.mtimes s.budget_file
        (((getAssoc s.budget_file fs1.mtimes).getD 0) + 1) }
  ({ s with loaded := false }, fs2, a')

/-- Strip empty and `"."` components from a slash-separated path. -/
def pathParts (p : String) : List String :=
  (pySplit '/' p).filter (fun c => c ≠ "" && c ≠ ".")

/-- Drop the longest common head of two component lists. -/
def dropCommonHead : List String → List String → List String × List String
  | a :: as, b :: bs =>
    if a = b then dropCommonHead as bs else (a :: as, b :: bs)
  | as, bs => (as, bs)

/-- Embedding of `os.path.relpath` for the dot-free relative slash-separated
paths the repository and its tests use (no drive letters, no `..` inputs). -/
def relpathPy (p start : String) : String :=
  let r := dropCommonHead (pathParts p) (pathParts start)
  let parts := r.2.map (fun _ => "..") ++ r.1
  if parts = [] then "." else joinSep "/" parts

/-- Substring test on character lists (embedding of Python `a in b`). -/
def containsSub (needle : List Char) : List Char → Bool
  | [] => needle.isEmpty
  | c :: t => needle.isPrefixOf (c :: t) || containsSub needle t

/-- Embedding of `BeancountService.check_budget_include`: true iff the main
ledger file exists and its text contains `include "<relpath-to-overlay>"`. -/
def check_budget_include (fs : FS) (s : SState) : Bool :=
  match fs.read s.filepath with
  | none => false
  | some content =>
    let rel_path := relpathPy s.budget_file (dirnameOrDot s.filepath)
    let expected := "include \"" ++ rel_path ++ "\""
    containsSub expected.data content.data

/-- Embedding of Python `s.startswith(pre)`. -/
def pyStartsWith (s pre : String) : Bool :=
  pre.data.isPrefixOf s.data

/-- True for `StandardBudget` allocations (`isinstance(b, StandardBudget)`). -/
def isStandardB (b : Budget) : Bool :=
  match b.variant with
  | .standard _ => true
  | .custom _ => false

/-- Embedding of Python `sum(b.amount for b in l)`. -/
def sumAmounts (l : List Budget) : Int :=
  l.foldl (fun acc b => acc + b.amount) 0

/-- Embedding of the route handler `create_budget` in
`api/routes/budgets.py`.  For a `StandardBudget` it fetches the active
budgets (`start_date=date.today()`), computes the child-exceeds-parent and
parent-insufficient-for-children quantities — whose enforcement the source
leaves commented out under a TODO — then unconditionally appends via
`add_budget` and returns the `"ok"` status.  The returned `Option Int`
components are the computed `available` and `children_sum` advisory values. -/
def create_budget (L : Loader) (printer : Entry → String) (today : Date)
    (now : Int) (s : SState) (fs : FS) (a : Budget) :
    SState × FS × String × Option Int × Option Int :=
  match a.variant with
  | .standard _ =>
    let r := entriesRead L fs s
    let existing := get_active_budgets r.2.1 (some today) none
    let standard_budgets := existing.filter isStandardB
    let parts := pySplit ':' a.account
    let available : Option Int :=
      if parts.length > 1 then
        let parent_name := joinSep ":" parts.dropLast
        match standard_budgets.find? (fun b => b.account == parent_name) with
        | some parent_budget =>
          let siblings := standard_budgets.filter (fun b =>
            pyStartsWith b.account (parent_name ++ ":") &&
              (pySplit ':' b.account).length == parts.length &&
              b.account != a.account)
          some (parent_budget.amount - sumAmounts siblings)
        | none => none
      else none
    let children := standard_budgets.filter (fun b =>
      pyStartsWith b.account (a.account ++ ":") &&
        (pySplit ':' b.account).length == parts.length + 1)
    let children_sum : Option Int :=
      if children ≠ [] then some (sumAmounts children) else none
    let w := add_budget printer today now r.1 fs a
    (w.1, w.2.1, "ok", available, children_sum)
  | .custom _ =>
    let w := add_budget printer today now s fs a
    (w.1, w.2.1, "ok", none, none)

/-- Keyword-argument binding of a Python call that has no `**kwargs`
catch-all: the call proceeds only when every supplied keyword matches a
declared parameter name; otherwise Python raises
`TypeError: got an unexpected keyword argument`. -/
def pyKwCall {α : Type} (accepted supplied : List String) (run : Unit → α) :
    Except String α :=
  if supplied.all (fun k => accepted.any (fun a => a = k)) then .ok (run ())
  else .error "TypeError: unexpected keyword argument"

/-- Keyword parameters accepted by `BeancountService.get_transactions`
(`self` aside): `start_date` and `end_date` only. -/
def get_transactions_kwparams : List String :=
  ["start_date", "end_date"]

/-- Keywords the route handler in `api/routes/transactions.py` supplies:
`service.get_transactions(start_date=..., end_date=..., account_name=...)`. -/
def transactions_route_kwargs : List String :=
  ["start_date", "end_date", "account_name"]

/-- Embedding of the GET `/transactions/` route handler: it forwards its
query parameters to `service.get_transactions` using the keyword
`account_name`. -/
def transactions_route (L : Loader) (fs : FS) (s : SState)
    (from_date to_date : Option Date) (account : Option String) :
    Except String (SState × List DomainTransaction) :=
  pyKwCall get_transactions_kwparams transactions_route_kwargs (fun _ =>
    service_get_transactions L fs s from_date to_date)

/-! Specification-side definitions used to state properties of the
resolver. -/

/-- Keys of a candidate-group association list. -/
def keysOf (acc : List (RKey × List Budget)) : List RKey :=
  acc.map Prod.fst

/-- Group stored for key `k` (first match, `[]` when absent). -/
def groupOf (k : RKey) : List (RKey × List Budget) → List Budget
  | [] => []
  | (k', bs) :: r => if k' = k then bs else groupOf k r

/-- All candidates a directive stream contributes to key `k`, in encounter
order. -/
def candsFor (k : RKey) (es : List Entry) : List Budget :=
  ((es.filterMap processEntry).filter (fun p => p.2 = k)).map Prod.fst

/-- The sort-order relation on tag lists (code-point `≤` between adjacent
elements). -/
def tagsSorted (l : List String) : Prop :=
  List.Pairwise (fun a b => strLe a b = true) l

/-- Metadata of a `Custom` entry (`[]` for other kinds). -/
def entryMeta : Entry → List (String × String)
  | .custom _ _ m _ => m
  | _ => []

/-- The disqualification condition claimed for budget-directive metadata,
with the end-date clause restricted to the branch where it is actually
consulted: no `start_date`, or `start_date` unparseable, or neither
`frequency` nor `end_date`, or — when `frequency` is absent — an
unparseable `end_date`. -/
def claimMalformed (meta : List (String × String)) : Bool :=
  match getAssoc "start_date" meta with
  | none => true
  | some sd =>
    (parseIsoDate sd).isNone ||
    (match getAssoc "frequency" meta, getAssoc "end_date" meta with
     | none, none => true
     | none, some ed => (parseIsoDate ed).isNone
     | some _, _ => false)

/-! Concrete fixtures used by counterexamples and witnesses. -/

/-- A loader that derives its entry list from the current content of the
requested file, so that reloading stale content is observable. -/
def contentLoader : Loader := fun fs p =>
  (match fs.read p with
   | some c => [Entry.custom ⟨2024, 1, 1⟩ "note" [("content", c)] []]
   | none => [], [], [])

/-- Root ledger `main.bean` with content `v1`, mtime 100. -/
def fsV1 : FS := ⟨[("main.bean", "v1")], [], [("main.bean", 100)]⟩

/-- The same ledger after an edit: content `v2`, mtime 200. -/
def fsV2 : FS := ⟨[("main.bean", "v2")], [], [("main.bean", 200)]⟩

/-- A freshly constructed service over `main.bean` / `budgets.bean`. -/
def sMain : SState := initService "main.bean" "budgets.bean"

/-- A well-formed Standard budget directive with the given amount and
`created_at`, for `Expenses:Food` starting 2024-01-01, monthly. -/
def stdDirective (amount : Int) (created : String) : Entry :=
  .custom ⟨2024, 1, 1⟩ "budget"
    [("start_date", "2024-01-01"), ("frequency", "monthly"),
     ("created_at", created)]
    [CVal.str "Expenses:Food", CVal.amount amount "USD"]

/-- The allocation `stdDirective amount created` parses to. -/
def stdBudgetOf (amount : Int) (created : Int) : Budget :=
  { account := "Expenses:Food", amount := amount, currency := "USD",
    tags := [], created_at := some created, start_date := ⟨2024, 1, 1⟩,
    variant := .standard "monthly" }

/-- A loader that reports one well-formed budget directive together with a
non-empty parse-error list. -/
def errorLoader : Loader := fun _ _ =>
  ([stdDirective 500 "100"], ["main.bean:3: invalid token"], [])

/-- Standard directive whose tags string lists `a` and `b` once each. -/
def tagsAB : Entry :=
  .custom ⟨2024, 1, 1⟩ "budget"
    [("start_date", "2024-01-01"), ("frequency", "monthly"),
     ("created_at", "100"), ("tags", "a,b")]
    [CVal.str "Expenses:Food", CVal.amount 500 "USD"]

/-- The same directive except that its tags string repeats `a`
(`"a,b,a"`) and it carries a later `created_at`. -/
def tagsABA : Entry :=
  .custom ⟨2024, 1, 1⟩ "budget"
    [("start_date", "2024-01-01"), ("frequency", "monthly"),
     ("created_at", "200"), ("tags", "a,b,a")]
    [CVal.str "Expenses:Food", CVal.amount 600 "USD"]

/-- The same directive with tags reordered (`"b,a"`) and a later
`created_at`. -/
def tagsBA : Entry :=
  .custom ⟨2024, 1, 1⟩ "budget"
    [("start_date", "2024-01-01"), ("frequency", "monthly"),
     ("created_at", "200"), ("tags", "b,a")]
    [CVal.str "Expenses:Food", CVal.amount 600 "USD"]

/-- A budget directive carrying `frequency` together with an unparseable
`end_date`. -/
def freqBadEnd : Entry :=
  .custom ⟨2024, 1, 1⟩ "budget"
    [("start_date", "2024-01-01"), ("frequency", "monthly"),
     ("end_date", "not-a-date"), ("created_at", "100")]
    [CVal.str "Expenses:Food", CVal.amount 500 "USD"]

/-- Filesystem whose root ledger includes the overlay file. -/
def fsIncl : FS :=
  ⟨[("main.bean", "include \"budgets.bean\"\n2023-01-02 open Expenses:Food USD\n")],
   ["."], [("main.bean", 10), ("budgets.bean", 20)]⟩

/-- The filesystem `fsIncl` after only the overlay's mtime advanced. -/
def fsInclTouched : FS :=
  ⟨[("main.bean", "include \"budgets.bean\"\n2023-01-02 open Expenses:Food USD\n")],
   ["."], [("main.bean", 10), ("budgets.bean", 21)]⟩

/-- A fixed stand-in for the external pretty-printer. -/
def demoPrinter : Entry → String := fun _ => "2026-02-01 custom budget directive"

/-- A Standard allocation without `created_at`, as submitted through the
API. -/
def allocNoCreated : Budget :=
  { account := "Expenses:Food:Grocery", amount := 150, currency := "USD",
    tags := [], created_at := none, start_date := ⟨2026, 2, 1⟩,
    variant := .standard "monthly" }

/-- A loader that always reports one active `Expenses:Food` budget of 100,
making `allocNoCreated` exceed its parent's remaining budget. -/
def parentLoader : Loader := fun _ _ =>
  ([stdDirective 100 "100"], [], [])

/-- The spec's conflict-resolution example: three Standard allocations for
one key with `created_at` 100, 200 and 50. -/
def lwwStream : List Entry :=
  [stdDirective 500 "100", stdDirective 600 "200", stdDirective 400 "50"]

/-- The allocation `tagsBA` parses to. -/
def bBA : Budget :=
  { account := "Expenses:Food", amount := 600, currency := "USD",
    tags := ["b", "a"], created_at := some 200, start_date := ⟨2024, 1, 1⟩,
    variant := .standard "monthly" }

/-- The allocation `tagsAB` parses to. -/
def bAB : Budget :=
  { account := "Expenses:Food", amount := 500, currency := "USD",
    tags := ["a", "b"], created_at := some 100, start_date := ⟨2024, 1, 1⟩,
    variant := .standard "monthly" }

/-- The resolution key shared by `tagsAB` and `tagsBA`. -/
def kAB : RKey :=
  { account := "Expenses:Food", start_date := ⟨2024, 1, 1⟩,
    disc := .freq "monthly", tags := ["a", "b"] }

/-- A budget directive carrying only a `start_date` (no `frequency`, no
`end_date`): disqualified. -/
def onlyStart : Entry :=
  .custom ⟨2024, 1, 1⟩ "budget" [("start_date", "2024-01-01")]
    [CVal.str "Expenses:Food", CVal.amount 500 "USD"]

/-! Helper lemmas about the association-list and cache primitives. -/

theorem getAssoc_setAssoc_self {β : Type} (l : List (String × β)) (k : String)
    (v : β) : getAssoc k (setAssoc l k v) = some v := by
  induction l with
  | nil => simp [setAssoc, getAssoc]
  | cons p r ih =>
    obtain ⟨k', v'⟩ := p
    by_cases h : k' = k
    · subst h
      simp [setAssoc, getAssoc]
    · simp [setAssoc, getAssoc, h, ih]

theorem getAssoc_setAssoc_ne {β : Type} (l : List (String × β)) (k q : String)
    (v : β) (h : q ≠ k) : getAssoc q (setAssoc l k v) = getAssoc q l := by
  have h' : k ≠ q := fun hh => h hh.symm
  induction l with
  | nil => simp [setAssoc, getAssoc, h']
  | cons p r ih =>
    obtain ⟨k', v'⟩ := p
    by_cases hk : k' = k
    · subst hk
      simp [setAssoc, getAssoc, h']
    · simp [setAssoc, getAssoc, hk, ih]

theorem mem_insertDir (d x : String) (ds : List String) (h : d ∈ ds) :
    d ∈ insertDir x ds := by
  unfold insertDir
  split
  · exact h
  · exact List.mem_append_left _ h

theorem self_mem_insertDir (x : String) (ds : List String) :
    x ∈ insertDir x ds := by
  unfold insertDir
  split
  · assumption
  · simp

theorem entriesRead_loaded (L : Loader) (fs : FS) (s : SState) :
    ((entriesRead L fs s).1).loaded = true := by
  cases h : s.loaded <;> simp [entriesRead, load, h]

theorem entriesRead_of_loaded (L : Loader) (fs : FS) (s : SState)
    (h : s.loaded = true) : entriesRead L fs s = (s, s.entries, 0) := by
  simp [entriesRead, h]

/-! Claim theorems: caching and error propagation. -/

/-- C9: if no tracked file's mtime changes between two consecutive reads on
an already-loaded service — in particular when only the budget overlay
file's mtime changes — the second read does not invoke the parser (its
loader-invocation count is zero) and returns the cached entries and state
unmodified. -/
theorem second_read_returns_cache (L : Loader) (fs1 fs2 : FS) (s : SState)
    (h : ∀ p, p ≠ s.budget_file →
      getAssoc p fs2.mtimes = getAssoc p fs1.mtimes) :
    (entriesRead L fs2 (entriesRead L fs1 s).1).2.2 = 0 ∧
      (entriesRead L fs2 (entriesRead L fs1 s).1).2.1 =
        (entriesRead L fs1 s).2.1 ∧
      (entriesRead L fs2 (entriesRead L fs1 s).1).1 = (entriesRead L fs1 s).1 := by
  cases hl : s.loaded <;> simp [entriesRead, load, hl]

/-- Witness for C9 at a concrete scenario: a loaded service over `fsIncl`,
then a second read after only the overlay file's mtime advanced
(`fsInclTouched`). -/
theorem second_read_returns_cache_witness :
    (entriesRead contentLoader fsInclTouched
        (entriesRead contentLoader fsIncl sMain).1).2.2 = 0 ∧
      (entriesRead contentLoader fsInclTouched
          (entriesRead contentLoader fsIncl sMain).1).2.1 =
        (entriesRead contentLoader fsIncl sMain).2.1 ∧
      (entriesRead contentLoader fsInclTouched
          (entriesRead contentLoader fsIncl sMain).1).1 =
        (entriesRead contentLoader fsIncl sMain).1 :=
  second_read_returns_cache contentLoader fsIncl fsInclTouched sMain
    (fun p hp => by
      have hb : p ≠ "budgets.bean" := hp
      show getAssoc p [("main.bean", 10), ("budgets.bean", 21)] =
        getAssoc p [("main.bean", 10), ("budgets.bean", 20)]
      by_cases hm : ("main.bean" : String) = p
      · simp [getAssoc, hm]
      · have hb' : ("budgets.bean" : String) ≠ p := fun hh => hb hh.symm
        simp [getAssoc, hm, hb'])

/-- C2 (code bug): after a successful load, editing the root ledger file
(content `v1` to `v2`, mtime 100 to 200) does not cause the next read to
re-parse — the `entries` property consults only the `_loaded` flag, so the
loader is invoked zero times and the pre-edit entries are returned, while a
fresh parse of the changed filesystem would differ. -/
theorem entries_stale_after_root_change :
    getAssoc "main.bean" fsV1.mtimes = some 100 ∧
      getAssoc "main.bean" fsV2.mtimes = some 200 ∧
      (entriesRead contentLoader fsV2
        (entriesRead contentLoader fsV1 sMain).1).2.2 = 0 ∧
      (entriesRead contentLoader fsV2
          (entriesRead contentLoader fsV1 sMain).1).2.1 =
        (contentLoader fsV1 "main.bean").1 ∧
      (contentLoader fsV2 "main.bean").1 ≠ (contentLoader fsV1 "main.bean").1 := by
  decide

/-- C3 (counterexample): a loader returning a non-empty `errors` list does
not make read operations fail — the budgets derived from the returned
entries are served, and the errors are merely recorded on the service
state. -/
theorem reads_serve_state_despite_errors :
    (errorLoader fsV1 "main.bean").2.1 ≠ [] ∧
      (service_get_active_budgets errorLoader fsV1 sMain none none).2 =
        [stdBudgetOf 500 100] ∧
      (service_get_active_budgets errorLoader fsV1 sMain none none).1.errors =
        ["main.bean:3: invalid token"] := by
  decide

/-- C3 (amended): `load` records the loader's entries, errors and options on
the service without raising, and the `entries` read returns the parsed
entries (or the cache) regardless of whether the errors list is empty. -/
theorem load_records_errors (L : Loader) (fs : FS) (s : SState) :
    (load L fs s).entries = (L fs s.filepath).1 ∧
      (load L fs s).errors = (L fs s.filepath).2.1 ∧
      (load L fs s).loaded = true ∧
      (entriesRead L fs s).2.1 =
        (if s.loaded then s.entries else (L fs s.filepath).1) := by
  cases h : s.loaded <;> simp [load, entriesRead, h]

/-- C10: every request to the GET transactions endpoint fails — the route
hands `service.get_transactions` the keyword `account_name`, which the
method does not accept, so for all inputs the call raises a `TypeError` and
no transaction list is returned. -/
theorem transactions_route_always_fails (L : Loader) (fs : FS) (s : SState)
    (from_date to_date : Option Date) (account : Option String) :
    transactions_route L fs s from_date to_date account =
      .error "TypeError: unexpected keyword argument" := rfl

/-! Helper lemmas about the write path. -/

theorem add_budget_state (printer : Entry → String) (today : Date) (now : Int)
    (s : SState) (fs : FS) (a : Budget) :
    (add_budget printer today now s fs a).1 = { s with loaded := false } := by
  simp [add_budget]

theorem add_budget_alloc (printer : Entry → String) (today : Date) (now : Int)
    (s : SState) (fs : FS) (a : Budget) :
    (add_budget printer today now s fs a).2.2 = withCreated now a := by
  simp [add_budget]

theorem add_budget_overlay (printer : Entry → String) (today : Date) (now : Int)
    (s : SState) (fs : FS) (a : Budget) :
    FS.read (add_budget printer today now s fs a).2.1 s.budget_file =
      some (((FS.read fs s.budget_file).getD "") ++ "\n" ++
        printer (budgetEntry today (withCreated now a))) := by
  simp [add_budget, FS.read, getAssoc_setAssoc_self]

theorem add_budget_read_other (printer : Entry → String) (today : Date)
    (now : Int) (s : SState) (fs : FS) (a : Budget) (p : String)
    (h : p ≠ s.budget_file) :
    FS.read (add_budget printer today now s fs a).2.1 p = FS.read fs p := by
  simp [add_budget, FS.read, getAssoc_setAssoc_ne _ _ _ _ h]

theorem add_budget_dirs (printer : Entry → String) (today : Date) (now : Int)
    (s : SState) (fs : FS) (a : Budget) :
    (add_budget printer today now s fs a).2.1.dirs =
      insertDir (dirnameOrDot s.budget_file) fs.dirs := by
  simp [add_budget]

theorem entriesRead_budget_file (L : Loader) (fs : FS) (s : SState) :
    ((entriesRead L fs s).1).budget_file = s.budget_file := by
  cases h : s.loaded <;> simp [entriesRead, load, h]

theorem entriesRead_filepath (L : Loader) (fs : FS) (s : SState) :
    ((entriesRead L fs s).1).filepath = s.filepath := by
  cases h : s.loaded <;> simp [entriesRead, load, h]

/-! Claim theorems: the write path. -/

/-- C7: `add_budget` only appends — afterwards the overlay file holds its
previous content followed by a blank line and the pretty-printed directive,
every other file (in particular the root ledger) is untouched, no existing
directory is removed, and the overlay's parent directory exists. -/
theorem add_budget_append_only (printer : Entry → String) (today : Date)
    (now : Int) (s : SState) (fs : FS) (a : Budget) :
    FS.read (add_budget printer today now s fs a).2.1 s.budget_file =
      some (((FS.read fs s.budget_file).getD "") ++ "\n" ++
        printer (budgetEntry today (withCreated now a))) ∧
      (∀ p, p ≠ s.budget_file →
        FS.read (add_budget printer today now s fs a).2.1 p = FS.read fs p) ∧
      (∀ d, d ∈ fs.dirs → d ∈ (add_budget printer today now s fs a).2.1.dirs) ∧
      dirnameOrDot s.budget_file ∈ (add_budget printer today now s fs a).2.1.dirs := by
  refine ⟨add_budget_overlay printer today now s fs a, ?_, ?_, ?_⟩
  · intro p hp
    exact add_budget_read_other printer today now s fs a p hp
  · intro d hd
    rw [add_budget_dirs]
    exact mem_insertDir d _ fs.dirs hd
  · rw [add_budget_dirs]
    exact self_mem_insertDir _ fs.dirs

/-- Witness for C7: appending a budget over `fsIncl` leaves the root ledger
file untouched and yields exactly the appended overlay content. -/
theorem add_budget_append_only_witness :
    FS.read (add_budget demoPrinter ⟨2026, 2, 1⟩ 42 sMain fsIncl
        allocNoCreated).2.1 sMain.budget_file =
      some (((FS.read fsIncl sMain.budget_file).getD "") ++ "\n" ++
        demoPrinter (budgetEntry ⟨2026, 2, 1⟩ (withCreated 42 allocNoCreated))) ∧
      FS.read (add_budget demoPrinter ⟨2026, 2, 1⟩ 42 sMain fsIncl
          allocNoCreated).2.1 "main.bean" =
        FS.read fsIncl "main.bean" :=
  ⟨(add_budget_append_only demoPrinter ⟨2026, 2, 1⟩ 42 sMain fsIncl
      allocNoCreated).1,
   (add_budget_append_only demoPrinter ⟨2026, 2, 1⟩ 42 sMain fsIncl
      allocNoCreated).2.1 "main.bean" (by decide)⟩

/-- C6: a write through `add_budget` on a service whose root ledger includes
the overlay unconditionally invalidates the cache (`_loaded := false`), so
the next read invokes the loader exactly once on the post-write filesystem —
which now contains the appended directive — and returns that fresh parse;
and an absent `created_at` is assigned the current time before
serialization. -/
theorem add_budget_invalidates_cache (L : Loader) (printer : Entry → String)
    (today : Date) (now : Int) (s : SState) (fs : FS) (a : Budget)
    (h : check_budget_include fs s = true) :
    (add_budget printer today now s fs a).1.loaded = false ∧
      (add_budget printer today now s fs a).2.2.created_at =
        some (a.created_at.getD now) ∧
      getAssoc "created_at"
          (entryMeta (budgetEntry today (add_budget printer today now s fs a).2.2)) =
        some (intToStr (a.created_at.getD now)) ∧
      (entriesRead L (add_budget printer today now s fs a).2.1
          (add_budget printer today now s fs a).1).2.2 = 1 ∧
      (entriesRead L (add_budget printer today now s fs a).2.1
          (add_budget printer today now s fs a).1).2.1 =
        (L (add_budget printer today now s fs a).2.1 s.filepath).1 ∧
      FS.read (add_budget printer today now s fs a).2.1 s.budget_file =
        some (((FS.read fs s.budget_file).getD "") ++ "\n" ++
          printer (budgetEntry today (add_budget printer today now s fs a).2.2)) := by
  refine ⟨?_, ?_, ?_, ?_, ?_, ?_⟩
  · rw [add_budget_state]
  · rw [add_budget_alloc]
    cases hca : a.created_at <;> simp [withCreated, hca]
  · rw [add_budget_alloc]
    cases hca : a.created_at <;>
      simp [withCreated, budgetEntry, entryMeta, getAssoc, hca]
  · rw [add_budget_state]
    simp [entriesRead]
  · rw [add_budget_state]
    simp [entriesRead, load]
  · rw [add_budget_alloc]
    exact add_budget_overlay printer today now s fs a

/-- Witness for C6 at a concrete scenario whose root ledger includes the
overlay (`check_budget_include` holds). -/
theorem add_budget_invalidates_cache_witness :
    (add_budget demoPrinter ⟨2026, 2, 1⟩ 42 sMain fsIncl
        allocNoCreated).1.loaded = false ∧
      (add_budget demoPrinter ⟨2026, 2, 1⟩ 42 sMain fsIncl
          allocNoCreated).2.2.created_at =
        some ((allocNoCreated.created_at).getD 42) ∧
      getAssoc "created_at"
          (entryMeta (budgetEntry ⟨2026, 2, 1⟩
            (add_budget demoPrinter ⟨2026, 2, 1⟩ 42 sMain fsIncl
              allocNoCreated).2.2)) =
        some (intToStr ((allocNoCreated.created_at).getD 42)) ∧
      (entriesRead contentLoader
          (add_budget demoPrinter ⟨2026, 2, 1⟩ 42 sMain fsIncl
            allocNoCreated).2.1
          (add_budget demoPrinter ⟨2026, 2, 1⟩ 42 sMain fsIncl
            allocNoCreated).1).2.2 = 1 ∧
      (entriesRead contentLoader
          (add_budget demoPrinter ⟨2026, 2, 1⟩ 42 sMain fsIncl
            allocNoCreated).2.1
          (add_budget demoPrinter ⟨2026, 2, 1⟩ 42 sMain fsIncl
            allocNoCreated).1).2.1 =
        (contentLoader
          (add_budget demoPrinter ⟨2026, 2, 1⟩ 42 sMain fsIncl
            allocNoCreated).2.1 sMain.filepath).1 ∧
      FS.read (add_budget demoPrinter ⟨2026, 2, 1⟩ 42 sMain fsIncl
          allocNoCreated).2.1 sMain.budget_file =
        some (((FS.read fsIncl sMain.budget_file).getD "") ++ "\n" ++
          demoPrinter (budgetEntry ⟨2026, 2, 1⟩
            (add_budget demoPrinter ⟨2026, 2, 1⟩ 42 sMain fsIncl
              allocNoCreated).2.2)) :=
  add_budget_invalidates_cache contentLoader demoPrinter ⟨2026, 2, 1⟩ 42 sMain
    fsIncl allocNoCreated (by decide)

/-- C8: the create-budget route's hierarchy checks are advisory — for every
allocation the result status is `"ok"` and the allocation is appended to the
overlay via `add_budget`, regardless of the computed check quantities. -/
theorem create_budget_always_ok (L : Loader) (printer : Entry → String)
    (today : Date) (now : Int) (s : SState) (fs : FS) (a : Budget) :
    (create_budget L printer today now s fs a).2.2.1 = "ok" ∧
      FS.read (create_budget L printer today now s fs a).2.1 s.budget_file =
        some (((FS.read fs s.budget_file).getD "") ++ "\n" ++
          printer (budgetEntry today (withCreated now a))) := by
  cases hv : a.variant with
  | standard f =>
    constructor
    · simp [create_budget, hv]
    · have hb := add_budget_overlay printer today now
        (entriesRead L fs s).1 fs a
      rw [entriesRead_budget_file] at hb
      simp [create_budget, hv]
      exact hb
  | custom ed =>
    constructor
    · simp [create_budget, hv]
    · have hb := add_budget_overlay printer today now s fs a
      simp [create_budget, hv]
      exact hb

/-- Witness for C8: a child allocation (150) exceeding its parent's computed
available budget (100) is still accepted with status `"ok"`. -/
theorem create_budget_always_ok_witness :
    (create_budget parentLoader demoPrinter ⟨2026, 2, 1⟩ 42 sMain fsIncl
        allocNoCreated).2.2.2.1 = some 100 ∧
      (create_budget parentLoader demoPrinter ⟨2026, 2, 1⟩ 42 sMain fsIncl
          allocNoCreated).2.2.1 = "ok" :=
  ⟨by decide,
   (create_budget_always_ok parentLoader demoPrinter ⟨2026, 2, 1⟩ 42 sMain
      fsIncl allocNoCreated).1⟩

/-! Correctness of the tag sort: `sortTags` maps permutation-equal tag lists
to one normal form. -/

theorem charToNat_inj (a b : Char) (h : a.toNat = b.toNat) : a = b := by
  rw [← Char.ofNat_toNat a, h, Char.ofNat_toNat]

theorem lexLe_cons (a b : Char) (as bs : List Char) :
    lexLe (a :: as) (b :: bs) = true ↔
      (a.toNat < b.toNat ∨ (a.toNat = b.toNat ∧ lexLe as bs = true)) := by
  by_cases h : a.toNat < b.toNat
  · simp [lexLe, h]
  · by_cases h2 : a.toNat = b.toNat
    · simp [lexLe, h, h2]
    · simp [lexLe, h, h2]

theorem lexLe_total (as bs : List Char) : lexLe as bs = true ∨ lexLe bs as = true := by
  induction as generalizing bs with
  | nil => left; simp [lexLe]
  | cons a as ih =>
    cases bs with
    | nil => right; simp [lexLe]
    | cons b bs =>
      rw [lexLe_cons, lexLe_cons]
      rcases Nat.lt_trichotomy a.toNat b.toNat with h | h | h
      · left; left; exact h
      · rcases ih bs with h2 | h2
        · left; right; exact ⟨h, h2⟩
        · right; right; exact ⟨h.symm, h2⟩
      · right; left; exact h

theorem lexLe_trans (as bs cs : List Char) (h1 : lexLe as bs = true)
    (h2 : lexLe bs cs = true) : lexLe as cs = true := by
  induction as generalizing bs cs with
  | nil => simp [lexLe]
  | cons a as ih =>
    cases bs with
    | nil => simp [lexLe] at h1
    | cons b bs =>
      cases cs with
      | nil => simp [lexLe] at h2
      | cons c cs =>
        rw [lexLe_cons] at h1 h2 ⊢
        rcases h1 with h1 | ⟨h1e, h1r⟩ <;> rcases h2 with h2 | ⟨h2e, h2r⟩
        · left; omega
        · left; omega
        · left; omega
        · right; exact ⟨by omega, ih bs cs h1r h2r⟩

theorem lexLe_antisymm (as bs : List Char) (h1 : lexLe as bs = true)
    (h2 : lexLe bs as = true) : as = bs := by
  induction as generalizing bs with
  | nil =>
    cases bs with
    | nil => rfl
    | cons b bs => simp [lexLe] at h2
  | cons a as ih =>
    cases bs with
    | nil => simp [lexLe] at h1
    | cons b bs =>
      rw [lexLe_cons] at h1 h2
      rcases h1 with h1 | ⟨h1e, h1r⟩ <;> rcases h2 with h2 | ⟨h2e, h2r⟩
      · exfalso; omega
      · exfalso; omega
      · exfalso; omega
      · rw [charToNat_inj a b h1e, ih bs h1r h2r]

theorem strLe_total (a b : String) : strLe a b = true ∨ strLe b a = true :=
  lexLe_total a.data b.data

theorem strLe_trans (a b c : String) (h1 : strLe a b = true)
    (h2 : strLe b c = true) : strLe a c = true :=
  lexLe_trans a.data b.data c.data h1 h2

theorem strLe_antisymm (a b : String) (h1 : strLe a b = true)
    (h2 : strLe b a = true) : a = b := by
  cases a with
  | mk da =>
    cases b with
    | mk db => exact congrArg String.mk (lexLe_antisymm da db h1 h2)

theorem insertTag_perm (x : String) (l : List String) :
    (insertTag x l).Perm (x :: l) := by
  induction l with
  | nil => exact List.Perm.refl _
  | cons y ys ih =>
    by_cases h : strLe x y = true
    · simp [insertTag, h]
    · simp only [insertTag, h]
      exact ((ih.cons y).trans (List.Perm.swap x y ys)).symm.symm

theorem sortTags_perm (l : List String) : (sortTags l).Perm l := by
  induction l with
  | nil => exact List.Perm.refl _
  | cons x xs ih =>
    exact (insertTag_perm x (sortTags xs)).trans (ih.cons x)

theorem insertTag_sorted (x : String) (l : List String) (h : tagsSorted l) :
    tagsSorted (insertTag x l) := by
  induction l with
  | nil => simp [insertTag, tagsSorted]
  | cons y ys ih =>
    rcases (List.pairwise_cons.mp h) with ⟨hy, hys⟩
    unfold tagsSorted
    by_cases hx : strLe x y = true
    · rw [insertTag, if_pos hx]
      refine List.pairwise_cons.mpr ⟨?_, h⟩
      intro z hz
      rcases List.mem_cons.mp hz with rfl | hz'
      · exact hx
      · exact strLe_trans x y z hx (hy z hz')
    · rw [insertTag, if_neg hx]
      refine List.pairwise_cons.mpr ⟨?_, ih hys⟩
      intro z hz
      have hz2 : z ∈ x :: ys := (insertTag_perm x ys).mem_iff.mp hz
      rcases List.mem_cons.mp hz2 with rfl | hz'
      · rcases strLe_total z y with h1 | h1
        · exact absurd h1 hx
        · exact h1
      · exact hy z hz'

theorem sortTags_sorted (l : List String) : tagsSorted (sortTags l) := by
  induction l with
  | nil => simp [sortTags, tagsSorted]
  | cons x xs ih => exact insertTag_sorted x (sortTags xs) ih

theorem sorted_unique (l1 l2 : List String) (h1 : tagsSorted l1)
    (h2 : tagsSorted l2) (hp : l1.Perm l2) : l1 = l2 := by
  induction l1 generalizing l2 with
  | nil => exact (hp.nil_eq).symm ▸ rfl
  | cons x xs ih =>
    cases l2 with
    | nil => exact absurd hp.symm.nil_eq (by simp)
    | cons y ys =>
      rcases List.pairwise_cons.mp h1 with ⟨hx, hxs⟩
      rcases List.pairwise_cons.mp h2 with ⟨hy, hys⟩
      have hxy : x = y := by
        have hxm : x ∈ y :: ys := hp.mem_iff.mp (List.mem_cons_self x xs)
        have hym : y ∈ x :: xs := hp.symm.mem_iff.mp (List.mem_cons_self y ys)
        rcases List.mem_cons.mp hxm with rfl | hxm'
        · rfl
        · rcases List.mem_cons.mp hym with rfl | hym'
          · rfl
          · exact strLe_antisymm x y (hx y hym') (hy x hxm')
      subst hxy
      have hp' : xs.Perm ys := hp.cons_inv
      rw [ih ys hxs hys hp']

theorem sortTags_eq_of_perm (t1 t2 : List String) (h : t1.Perm t2) :
    sortTags t1 = sortTags t2 :=
  sorted_unique _ _ (sortTags_sorted t1) (sortTags_sorted t2)
    (((sortTags_perm t1).trans h).trans (sortTags_perm t2).symm)

/-! Lemmas about candidate grouping in the resolver. -/

theorem processEntry_key (e : Entry) (b : Budget) (k : RKey)
    (h : processEntry e = some (b, k)) : k = keyOf b := by
  cases e with
  | custom dt ty meta vals =>
    simp only [processEntry] at h
    repeat' split at h
    all_goals
      first
        | exact Option.noConfusion h
        | (simp only [Option.some.injEq, Prod.mk.injEq] at h
           obtain ⟨hb, hk⟩ := h
           subst hb
           subst hk
           simp [keyOf])
  | openAcc dt a c => simp [processEntry] at h
  | closeAcc dt a => simp [processEntry] at h
  | txn dt p n f ps => simp [processEntry] at h

theorem filterMap_key (es : List Entry) (b : Budget) (k : RKey)
    (h : (b, k) ∈ es.filterMap processEntry) : k = keyOf b := by
  rw [List.mem_filterMap] at h
  obtain ⟨e, _, hpe⟩ := h
  exact processEntry_key e b k hpe

theorem groupOf_addCandidate_self (acc : List (RKey × List Budget)) (k : RKey)
    (b : Budget) : groupOf k (addCandidate acc k b) = groupOf k acc ++ [b] := by
  induction acc with
  | nil => simp [addCandidate, groupOf]
  | cons p r ih =>
    obtain ⟨k', bs⟩ := p
    by_cases h : k' = k
    · subst h
      simp [addCandidate, groupOf]
    · simp [addCandidate, groupOf, h, ih]

theorem groupOf_addCandidate_ne (acc : List (RKey × List Budget))
    (k k₁ : RKey) (b : Budget) (h : k₁ ≠ k) :
    groupOf k₁ (addCandidate acc k b) = groupOf k₁ acc := by
  have h' : k ≠ k₁ := fun hh => h hh.symm
  induction acc with
  | nil => simp [addCandidate, groupOf, h']
  | cons p r ih =>
    obtain ⟨k', bs⟩ := p
    by_cases hk : k' = k
    · subst hk
      simp [addCandidate, groupOf, h']
    · simp [addCandidate, groupOf, hk, ih]

theorem keysOf_addCandidate (acc : List (RKey × List Budget)) (k : RKey)
    (b : Budget) :
    keysOf (addCandidate acc k b) =
      if k ∈ keysOf acc then keysOf acc else keysOf acc ++ [k] := by
  induction acc with
  | nil => simp [addCandidate, keysOf]
  | cons p r ih =>
    obtain ⟨k', bs⟩ := p
    by_cases h : k' = k
    · subst h
      simp [addCandidate, keysOf]
    · have hne : ¬ k = k' := fun hh => h hh.symm
      simp only [addCandidate, if_neg h, keysOf, List.map_cons] at ih ⊢
      rw [ih]
      by_cases hm : k ∈ List.map Prod.fst r
      · rw [if_pos hm, if_pos (List.mem_cons_of_mem _ hm)]
      · rw [if_neg hm, if_neg (by simp [List.mem_cons, hne, hm]),
          List.cons_append]

theorem mem_keysOf_addCandidate (acc : List (RKey × List Budget))
    (k k₁ : RKey) (b : Budget) :
    k₁ ∈ keysOf (addCandidate acc k b) ↔ k₁ = k ∨ k₁ ∈ keysOf acc := by
  rw [keysOf_addCandidate]
  by_cases h : k ∈ keysOf acc
  · rw [if_pos h]
    constructor
    · exact fun hm => Or.inr hm
    · rintro (rfl | hm)
      · exact h
      · exact hm
  · rw [if_neg h]
    simp [List.mem_append, or_comm]

theorem nodup_keysOf_addCandidate (acc : List (RKey × List Budget)) (k : RKey)
    (b : Budget) (h : (keysOf acc).Nodup) :
    (keysOf (addCandidate acc k b)).Nodup := by
  rw [keysOf_addCandidate]
  split
  · exact h
  · next hk =>
    refine List.Nodup.append h (List.nodup_singleton k) ?_
    intro a ha hb
    rw [List.mem_singleton] at hb
    subst hb
    exact hk ha

theorem groups_ne_nil_addCandidate (acc : List (RKey × List Budget)) (k : RKey)
    (b : Budget) (h : ∀ g ∈ acc, g.2 ≠ []) :
    ∀ g ∈ addCandidate acc k b, g.2 ≠ [] := by
  induction acc with
  | nil =>
    intro g hg
    simp [addCandidate] at hg
    subst hg
    simp
  | cons p r ih =>
    obtain ⟨k', bs⟩ := p
    intro g hg
    by_cases hk : k' = k
    · subst hk
      simp only [addCandidate, if_pos rfl] at hg
      rcases List.mem_cons.mp hg with rfl | hg'
      · simp
      · exact h g (List.mem_cons_of_mem _ hg')
    · simp only [addCandidate, if_neg hk] at hg
      rcases List.mem_cons.mp hg with rfl | hg'
      · exact h (k', bs) (List.mem_cons_self _ _)
      · exact ih (fun g' hg'' => h g' (List.mem_cons_of_mem _ hg'')) g hg'

theorem groupOf_of_mem (acc : List (RKey × List Budget)) (k : RKey)
    (bs : List Budget) (hnd : (keysOf acc).Nodup) (h : (k, bs) ∈ acc) :
    groupOf k acc = bs := by
  induction acc with
  | nil => cases h
  | cons p r ih =>
    obtain ⟨k', bs'⟩ := p
    rcases List.mem_cons.mp h with heq | hmem
    · cases heq
      simp [groupOf]
    · have hnd' : (keysOf r).Nodup := (List.nodup_cons.mp hnd).2
      have hk : k' ≠ k := by
        intro hh
        subst hh
        have hmk : k' ∈ keysOf r := by
          simp only [keysOf, List.mem_map]
          exact ⟨(k', bs), hmem, rfl⟩
        exact (List.nodup_cons.mp hnd).1 hmk
      simp [groupOf, hk]
      exact ih hnd' hmem

theorem foldl_stepCand_groupOf (k : RKey) (es : List Entry) :
    ∀ acc, groupOf k (es.foldl stepCand acc) = groupOf k acc ++ candsFor k es := by
  induction es with
  | nil =>
    intro acc
    simp [candsFor]
  | cons e es ih =>
    intro acc
    rw [List.foldl_cons, ih]
    cases hp : processEntry e with
    | none =>
      simp [stepCand, hp, candsFor]
    | some p =>
      obtain ⟨b, k'⟩ := p
      by_cases hk : k' = k
      · subst hk
        simp only [stepCand, hp]
        rw [groupOf_addCandidate_self]
        simp [candsFor, hp, List.filterMap_cons, List.filter_cons]
      · simp only [stepCand, hp]
        rw [groupOf_addCandidate_ne _ _ _ _ (fun hh => hk hh.symm)]
        simp [candsFor, hp, List.filterMap_cons, List.filter_cons, hk]

theorem foldl_stepCand_keys (k : RKey) (es : List Entry) :
    ∀ acc, k ∈ keysOf (es.foldl stepCand acc) ↔
      (k ∈ keysOf acc ∨ k ∈ (es.filterMap processEntry).map Prod.snd) := by
  induction es with
  | nil =>
    intro acc
    simp
  | cons e es ih =>
    intro acc
    rw [List.foldl_cons, ih]
    cases hp : processEntry e with
    | none => simp [stepCand, hp]
    | some p =>
      obtain ⟨b, k'⟩ := p
      simp only [stepCand, hp, mem_keysOf_addCandidate,
        List.filterMap_cons, List.map_cons, List.mem_cons]
      tauto

theorem foldl_stepCand_nodup (es : List Entry) :
    ∀ acc, (keysOf acc).Nodup → (keysOf (es.foldl stepCand acc)).Nodup := by
  induction es with
  | nil => exact fun acc h => h
  | cons e es ih =>
    intro acc h
    rw [List.foldl_cons]
    cases hp : processEntry e with
    | none =>
      simp only [stepCand, hp]
      exact ih acc h
    | some p =>
      obtain ⟨b, k'⟩ := p
      simp only [stepCand, hp]
      exact ih _ (nodup_keysOf_addCandidate acc k' b h)

theorem foldl_stepCand_ne_nil (es : List Entry) :
    ∀ acc, (∀ g ∈ acc, g.2 ≠ []) →
      ∀ g ∈ es.foldl stepCand acc, g.2 ≠ [] := by
  induction es with
  | nil => exact fun acc h => h
  | cons e es ih =>
    intro acc h
    rw [List.foldl_cons]
    cases hp : processEntry e with
    | none =>
      simp only [stepCand, hp]
      exact ih acc h
    | some p =>
      obtain ⟨b, k'⟩ := p
      simp only [stepCand, hp]
      exact ih _ (groups_ne_nil_addCandidate acc k' b h)

theorem collect_nodup (es : List Entry) :
    (keysOf (collectCandidates es)).Nodup :=
  foldl_stepCand_nodup es [] (by simp [keysOf])

theorem collect_ne_nil (es : List Entry) :
    ∀ g ∈ collectCandidates es, g.2 ≠ [] :=
  foldl_stepCand_ne_nil es [] (by simp)

theorem collect_groupOf (es : List Entry) (k : RKey) :
    groupOf k (collectCandidates es) = candsFor k es := by
  have h := foldl_stepCand_groupOf k es []
  simpa [collectCandidates, groupOf] using h

theorem collect_keys_mem (es : List Entry) (k : RKey) :
    k ∈ keysOf (collectCandidates es) ↔
      k ∈ (es.filterMap processEntry).map Prod.snd := by
  have h := foldl_stepCand_keys k es []
  simpa [collectCandidates, keysOf] using h

theorem mem_collect_eq_cands (es : List Entry) (g : RKey × List Budget)
    (hg : g ∈ collectCandidates es) : g.2 = candsFor g.1 es := by
  have h := groupOf_of_mem (collectCandidates es) g.1 g.2 (collect_nodup es)
    (by simpa using hg)
  rw [collect_groupOf] at h
  exact h.symm

theorem mem_candsFor (k : RKey) (es : List Entry) (b : Budget) :
    b ∈ candsFor k es ↔ (b, k) ∈ es.filterMap processEntry := by
  constructor
  · intro h
    simp only [candsFor, List.mem_map, List.mem_filter] at h
    obtain ⟨p, ⟨hp, hk⟩, hfst⟩ := h
    have hkk : p.2 = k := by simpa using hk
    have : p = (b, k) := by
      cases p
      simp_all
    rw [← this]
    exact hp
  · intro h
    simp only [candsFor, List.mem_map, List.mem_filter]
    exact ⟨(b, k), ⟨h, by simp⟩, rfl⟩

theorem foldl_maxSel_spec : ∀ (bs : List Budget) (b : Budget),
    (bs.foldl (fun best x => if createdOr0 best < createdOr0 x then x else best) b)
      ∈ b :: bs ∧
    ∀ x ∈ b :: bs, createdOr0 x ≤
      createdOr0
        (bs.foldl (fun best x => if createdOr0 best < createdOr0 x then x else best) b) := by
  intro bs
  induction bs with
  | nil =>
    intro b
    constructor
    · simp
    · intro x hx
      simp at hx
      subst hx
      exact le_refl _
  | cons y ys ih =>
    intro b
    rw [List.foldl_cons]
    obtain ⟨hmem, hbound⟩ := ih (if createdOr0 b < createdOr0 y then y else b)
    constructor
    · rcases List.mem_cons.mp hmem with heq | hm
      · rw [heq]
        split
        · simp
        · simp
      · simp only [List.mem_cons]
        right
        right
        exact hm
    · intro x hx
      have hstep : createdOr0 b ≤
          createdOr0 (if createdOr0 b < createdOr0 y then y else b) ∧
          createdOr0 y ≤
          createdOr0 (if createdOr0 b < createdOr0 y then y else b) := by
        split
        · next h => exact ⟨le_of_lt h, le_refl _⟩
        · next h => exact ⟨le_refl _, le_of_not_lt h⟩
      rcases List.mem_cons.mp hx with rfl | hx'
      · exact le_trans hstep.1 (hbound _ (List.mem_cons_self _ _))
      · rcases List.mem_cons.mp hx' with rfl | hx''
        · exact le_trans hstep.2 (hbound _ (List.mem_cons_self _ _))
        · exact hbound x (List.mem_cons_of_mem _ hx'')

theorem pickWinner_spec (b : Budget) (bs : List Budget) :
    ∃ w, pickWinner (b :: bs) = some w ∧ w ∈ b :: bs ∧
      ∀ x ∈ b :: bs, createdOr0 x ≤ createdOr0 w := by
  obtain ⟨hmem, hbound⟩ := foldl_maxSel_spec bs b
  exact ⟨_, rfl, hmem, hbound⟩

theorem collect_group_winner (es : List Entry) (g : RKey × List Budget)
    (hg : g ∈ collectCandidates es) :
    ∃ w, pickWinner g.2 = some w ∧ w ∈ g.2 ∧
      keyOf w = g.1 ∧ ∀ x ∈ g.2, createdOr0 x ≤ createdOr0 w := by
  have hne := collect_ne_nil es g hg
  have hcands := mem_collect_eq_cands es g hg
  obtain ⟨b, bs, hbs⟩ : ∃ b bs, g.2 = b :: bs := by
    cases hgg : g.2 with
    | nil => exact absurd hgg hne
    | cons b bs => exact ⟨b, bs, rfl⟩
  obtain ⟨w, hw, hmem, hbound⟩ := pickWinner_spec b bs
  refine ⟨w, by rw [hbs]; exact hw, hbs ▸ hmem, ?_, hbs ▸ hbound⟩
  have hwc : w ∈ candsFor g.1 es := hcands ▸ hbs ▸ hmem
  exact (filterMap_key es w g.1 ((mem_candsFor g.1 es w).mp hwc)).symm

theorem filterMap_pickWinner_keys (l : List (RKey × List Budget))
    (h : ∀ g ∈ l, ∃ w, pickWinner g.2 = some w ∧ keyOf w = g.1) :
    (l.filterMap (fun g => pickWinner g.2)).map keyOf = keysOf l := by
  induction l with
  | nil => simp [keysOf]
  | cons g r ih =>
    obtain ⟨w, hw, hk⟩ := h g (List.mem_cons_self _ _)
    simp only [List.filterMap_cons, hw, List.map_cons, keysOf, hk]
    have := ih (fun g' hg' => h g' (List.mem_cons_of_mem _ hg'))
    simp only [keysOf] at this
    rw [this]

theorem result_keys (es : List Entry) (sd ed : Option Date) :
    (get_active_budgets es sd ed).map keyOf = keysOf (collectCandidates es) := by
  apply filterMap_pickWinner_keys
  intro g hg
  obtain ⟨w, hw, _, hk, _⟩ := collect_group_winner es g hg
  exact ⟨w, hw, hk⟩

/-- C1: `get_active_budgets` returns exactly one allocation per resolution
key — the returned keys are duplicate-free and are exactly the keys of the
well-formed budget directives in the stream — and each returned winner is
itself one of the parsed candidates for its key (so it carries that
directive's amount and fields) with `created_at` (absent counting as 0)
maximal among all candidates sharing the key; all other revisions are
discarded. -/
theorem get_active_budgets_last_writer_wins (es : List Entry)
    (sd ed : Option Date) :
    ((get_active_budgets es sd ed).map keyOf).Nodup ∧
      (∀ k, k ∈ (es.filterMap processEntry).map Prod.snd ↔
        k ∈ (get_active_budgets es sd ed).map keyOf) ∧
      ∀ w ∈ get_active_budgets es sd ed,
        (w, keyOf w) ∈ es.filterMap processEntry ∧
          ∀ p ∈ es.filterMap processEntry, p.2 = keyOf w →
            createdOr0 p.1 ≤ createdOr0 w := by
  refine ⟨?_, ?_, ?_⟩
  · rw [result_keys]
    exact collect_nodup es
  · intro k
    rw [result_keys]
    exact (collect_keys_mem es k).symm
  · intro w hw
    simp only [get_active_budgets, List.mem_filterMap] at hw
    obtain ⟨g, hg, hpick⟩ := hw
    obtain ⟨w', hw', hmem', hk', hbound'⟩ := collect_group_winner es g hg
    have hww : w' = w := by
      rw [hpick] at hw'
      exact (Option.some.injEq _ _ ▸ hw').symm
    subst hww
    have hcands := mem_collect_eq_cands es g hg
    constructor
    · rw [hk']
      exact (mem_candsFor g.1 es w').mp (hcands ▸ hmem')
    · intro p hp hpk
      have hpk2 : p.2 = g.1 := hpk.trans hk'
      have hpc : p.1 ∈ candsFor g.1 es := by
        apply (mem_candsFor g.1 es p.1).mpr
        have hpe : (p.1, g.1) = p := by
          rw [← hpk2]
        rw [hpe]
        exact hp
      exact hbound' p.1 (hcands ▸ hpc)

/-- Witness for C1 on the spec's own example stream (`created_at` 100, 200,
50 for one key): one winner, the `created_at = 200` revision with amount
600. -/
theorem get_active_budgets_last_writer_wins_witness :
    ((get_active_budgets lwwStream none none).map keyOf).Nodup ∧
      get_active_budgets lwwStream none none = [stdBudgetOf 600 200] :=
  ⟨(get_active_budgets_last_writer_wins lwwStream none none).1, by decide⟩

/-- C4 (counterexample): two budget directives identical except that one's
tags string repeats a tag (`"a,b"` versus `"a,b,a"`, the same tag set)
resolve to two independent allocations, not one — the source sorts the tag
list but never de-duplicates it. -/
theorem duplicate_tags_not_collapsed :
    (parseTags "a,b").toFinset = (parseTags "a,b,a").toFinset ∧
      sortTags (parseTags "a,b") ≠ sortTags (parseTags "a,b,a") ∧
      (get_active_budgets [tagsAB, tagsABA] none none).length = 2 := by
  decide

/-- C4 (amended): the resolution key depends only on the sorted tag list
with multiplicities — two budget directives identical except for the order
of their tags share one key and resolve to a single winner, but duplicated
repetitions of a tag produce a different key. -/
theorem resolution_key_tag_order_invariant (e1 e2 : Entry) (b1 b2 : Budget)
    (k1 k2 : RKey) (sd ed : Option Date)
    (h1 : processEntry e1 = some (b1, k1))
    (h2 : processEntry e2 = some (b2, k2))
    (hacct : b1.account = b2.account) (hsd : b1.start_date = b2.start_date)
    (hvar : b1.variant = b2.variant) (hperm : b1.tags.Perm b2.tags) :
    k1 = k2 ∧ (get_active_budgets [e1, e2] sd ed).length = 1 := by
  have hk1 := processEntry_key e1 b1 k1 h1
  have hk2 := processEntry_key e2 b2 k2 h2
  have hkeys : keyOf b1 = keyOf b2 := by
    simp [keyOf, hacct, hsd, hvar, sortTags_eq_of_perm _ _ hperm]
  have hks : k1 = k2 := by rw [hk1, hk2, hkeys]
  refine ⟨hks, ?_⟩
  subst hks
  simp [get_active_budgets, collectCandidates, stepCand, h1, h2, addCandidate,
    pickWinner]

/-- Witness for C4 at the spec's tag-order example: `"b,a"` versus `"a,b"`
share a key and yield one winner. -/
theorem resolution_key_tag_order_invariant_witness :
    kAB = kAB ∧ (get_active_budgets [tagsBA, tagsAB] none none).length = 1 :=
  resolution_key_tag_order_invariant tagsBA tagsAB bBA bAB kAB kAB none none
    (by decide) (by decide) (by decide) (by decide) (by decide) (by decide)

/-- C5 (counterexample): a budget directive carrying `frequency` together
with an unparseable `end_date` is not dropped — the Standard branch wins
before `end_date` is ever parsed, so one allocation is produced where the
claim demands none. -/
theorem freq_priority_overrides_bad_end_date :
    getAssoc "end_date" (entryMeta freqBadEnd) = some "not-a-date" ∧
      parseIsoDate "not-a-date" = none ∧
      (get_active_budgets [freqBadEnd] none none).length = 1 := by
  decide

theorem foldl_stepCand_skip (e : Entry) (he : processEntry e = none)
    (xs ys : List Entry) (acc : List (RKey × List Budget)) :
    (xs ++ e :: ys).foldl stepCand acc = (xs ++ ys).foldl stepCand acc := by
  rw [List.foldl_append, List.foldl_append, List.foldl_cons]
  simp [stepCand, he]

/-- C5 (amended): a budget directive that lacks `start_date`, or whose
`start_date` is not ISO-parseable, or that carries neither `frequency` nor
`end_date`, or — when `frequency` is absent — whose `end_date` is not
ISO-parseable, contributes no allocation and raises nothing, and deleting it
from the stream leaves `get_active_budgets` unchanged, so every other
directive is still resolved normally. -/
theorem malformed_budget_dropped (dt : Date) (meta : List (String × String))
    (values : List CVal) (es1 es2 : List Entry) (sd ed : Option Date)
    (h : claimMalformed meta = true) :
    processEntry (.custom dt "budget" meta values) = none ∧
      get_active_budgets (es1 ++ .custom dt "budget" meta values :: es2) sd ed =
        get_active_budgets (es1 ++ es2) sd ed := by
  have hnone : processEntry (.custom dt "budget" meta values) = none := by
    simp only [processEntry, if_pos rfl]
    cases hsd : getAssoc "start_date" meta with
    | none => rfl
    | some sdStr =>
      simp only [claimMalformed, hsd] at h
      cases values with
      | nil => rfl
      | cons v0 vs =>
        cases vs with
        | nil => cases v0 <;> rfl
        | cons v1 vs' =>
          cases v0 with
          | amount n c => rfl
          | str acct =>
            cases v1 with
            | str s2 => rfl
            | amount num cur =>
              cases hpd : parseIsoDate sdStr with
              | none => simp [hpd]
              | some bStart =>
                simp only [hpd, Option.isNone_some, Bool.false_or] at h
                cases hcr : (match getAssoc "created_at" meta with
                    | none => some (0 : Int)
                    | some cs => parsePyInt cs) with
                | none => simp [hpd, hcr]
                | some bc =>
                  cases hf : getAssoc "frequency" meta with
                  | some f => simp [hf] at h
                  | none =>
                    cases he : getAssoc "end_date" meta with
                    | none => simp [hpd, hcr, hf, he]
                    | some edStr =>
                      simp only [hf, he] at h
                      cases hpe : parseIsoDate edStr with
                      | none => simp [hpd, hcr, hf, he, hpe]
                      | some _ => simp [hpe] at h
  refine ⟨hnone, ?_⟩
  unfold get_active_budgets collectCandidates
  rw [foldl_stepCand_skip _ hnone]

/-- Witness for C5: a directive with only a `start_date` is dropped and the
surrounding stream resolves as if it were absent. -/
theorem malformed_budget_dropped_witness :
    processEntry (.custom ⟨2024, 1, 1⟩ "budget" [("start_date", "2024-01-01")]
        [CVal.str "Expenses:Food", CVal.amount 500 "USD"]) = none ∧
      get_active_budgets ([stdDirective 600 "200"] ++
          .custom ⟨2024, 1, 1⟩ "budget" [("start_date", "2024-01-01")]
            [CVal.str "Expenses:Food", CVal.amount 500 "USD"] :: []) none none =
        get_active_budgets ([stdDirective 600 "200"] ++ []) none none :=
  malformed_budget_dropped ⟨2024, 1, 1⟩ [("start_date", "2024-01-01")]
    [CVal.str "Expenses:Food", CVal.amount 500 "USD"]
    [stdDirective 600 "200"] [] none none (by decide)

end BagelCount
